import Mathlib

/-
Verification development for the action-tagger GitHub Action
(source: src/main.ts).

The development shallowly embeds:
  * the parts of the external `semver` library the action calls
    (`clean`, `compare`, `prerelease`, `inc`), modelled after node-semver's
    strict grammar and algorithms (numeric identifiers as `Nat`, exact
    arithmetic; the JS float representation above 2^53 is not modelled);
  * the action's own functions `checkTag`, `getLatestTag`, `checkMessages`,
    `isReleaseBranch` and the main `action` flow, as pure functions over an
    explicit repository state (tags, branch refs, commits, issues) standing
    for the remote API responses;
  * the fixed commit-message regular expressions (`#wip\b`, `#major\b`,
    `#minor\b`, `#patch\b`, `fix(?:es)? #\d+`) as character-list scanners;
    the user-configured release-branch regular expressions are abstracted
    as a test oracle parameter, since arbitrary JS regexes are external.

All definitions are executable so that concrete runs can be evaluated by
`decide`.  JavaScript array sort with the semver comparator is modelled by
stable insertion sort, which computes the same permutation as any stable
sort under a consistent comparator.
-/

namespace ActionTagger

/-! ## Character and string utilities (kernel-reducible replacements for
JS string primitives used by the source) -/

/-- JS word character class `\w` = `[A-Za-z0-9_]`. -/
def isWordChar (c : Char) : Bool := c.isAlphanum || c = '_'

/-- A `\b` word boundary holds after a word character iff the next
character is absent or not a word character. -/
def boundaryAfter : List Char → Bool
  | [] => true
  | c :: _ => !isWordChar c

/-- Digit run of a character list, with the remainder. -/
def takeDigits (s : List Char) : List Char × List Char :=
  (s.takeWhile Char.isDigit, s.dropWhile Char.isDigit)

/-- Numeric value of a digit list (exact; JS floats above 2^53 are not
modelled). -/
def digitsVal (ds : List Char) : Nat :=
  ds.foldl (fun a c => a * 10 + (c.toNat - 48)) 0

/-- JS `String.prototype.trim`, on character lists. -/
def jsTrim (s : List Char) : List Char :=
  ((s.dropWhile Char.isWhitespace).reverse.dropWhile Char.isWhitespace).reverse

/-- JS `String.prototype.toLowerCase` (ASCII part, which is all the source
compares against). -/
def jsToLower (s : String) : String := String.mk (s.data.map Char.toLower)

/-- JS `String.prototype.split` with a single-character separator. -/
def splitOnChar (sep : Char) : List Char → List (List Char)
  | [] => [[]]
  | c :: rest =>
    let r := splitOnChar sep rest
    if c = sep then [] :: r
    else
      match r with
      | h :: t => (c :: h) :: t
      | [] => [[c]]

/-- JS `String.prototype.replace` with a literal pattern (non-global):
removes the first occurrence of `pat`. -/
def removeFirstOcc (pat : List Char) : List Char → List Char
  | [] => []
  | c :: rest =>
    if pat.isPrefixOf (c :: rest) then (c :: rest).drop pat.length
    else c :: removeFirstOcc pat rest

/-! ## Semantic versions (model of the node-semver library, an external
collaborator of the source) -/

/-- A prerelease identifier: numeric (`0 | [1-9][0-9]*`) or alphanumeric. -/
inductive PreId where
  | num (n : Nat)
  | str (s : String)
deriving DecidableEq

/-- A parsed semantic version.  `build` metadata is kept but never
compared, matching the library. -/
structure SemVer where
  major : Nat
  minor : Nat
  patch : Nat
  prerelease : List PreId
  build : List String
deriving DecidableEq

/-- node-semver MAX_SAFE_INTEGER bound on numeric components. -/
def maxSafeInt : Nat := 9007199254740991

/-- Characters allowed in prerelease/build identifiers: `[0-9A-Za-z-]`. -/
def isIdentChar (c : Char) : Bool := c.isAlphanum || c = '-'

/-- Identifier run of a character list, with the remainder. -/
def takeIdent (s : List Char) : List Char × List Char :=
  (s.takeWhile isIdentChar, s.dropWhile isIdentChar)

/-- The strict numeric-identifier grammar `0 | [1-9][0-9]*`: nonempty
digits without a leading zero. -/
def validNumChars (ds : List Char) : Bool :=
  !ds.isEmpty && (ds = ['0'] || ds.headD '0' ≠ '0')

/-- Parse one strict numeric identifier (for major/minor/patch). -/
def parseNum (s : List Char) : Option (Nat × List Char) :=
  let p := takeDigits s
  if validNumChars p.1 then some (digitsVal p.1, p.2) else none

/-- A prerelease identifier piece is valid iff nonempty and, when it is
all digits, it has no leading zero (otherwise the non-numeric alternative
`[0-9]*[A-Za-z-][0-9A-Za-z-]*` matches it). -/
def validPreId (p : List Char) : Bool :=
  !p.isEmpty && (!(p.all Char.isDigit) || validNumChars p)

/-- Intern a valid prerelease piece: all-digit pieces become numeric. -/
def mkPreId (p : List Char) : PreId :=
  if p.all Char.isDigit then PreId.num (digitsVal p) else PreId.str (String.mk p)

/-- Parse a dot-separated prerelease identifier list (fuel-indexed; the
fuel is always sufficient since every step consumes characters). -/
def parsePreListF : Nat → List Char → Option (List PreId × List Char)
  | 0, _ => none
  | fuel + 1, s =>
    let p := takeIdent s
    if validPreId p.1 then
      match p.2 with
      | '.' :: r2 => (parsePreListF fuel r2).map (fun l => (mkPreId p.1 :: l.1, l.2))
      | _ => some ([mkPreId p.1], p.2)
    else none

/-- Parse a dot-separated build identifier list, consuming all input. -/
def parseBuildF : Nat → List Char → Option (List String)
  | 0, _ => none
  | fuel + 1, s =>
    let p := takeIdent s
    if p.1.isEmpty then none
    else
      match p.2 with
      | [] => some [String.mk p.1]
      | '.' :: r2 => (parseBuildF fuel r2).map (fun t => String.mk p.1 :: t)
      | _ => none

/-- Parse `MAJOR.MINOR.PATCH`, returning the remainder. -/
def parseMMP (s : List Char) : Option (Nat × Nat × Nat × List Char) :=
  match parseNum s with
  | none => none
  | some (maj, r1) =>
    match r1 with
    | '.' :: r2 =>
      match parseNum r2 with
      | none => none
      | some (mnr, r3) =>
        match r3 with
        | '.' :: r4 =>
          match parseNum r4 with
          | none => none
          | some (pat, r5) => some (maj, mnr, pat, r5)
        | _ => none
    | _ => none

/-- Parse the optional `-prerelease` and `+build` tail. -/
def parseTail (s : List Char) : Option (List PreId × List String) :=
  match s with
  | [] => some ([], [])
  | '-' :: r =>
    match parsePreListF (r.length + 1) r with
    | none => none
    | some (pre, r2) =>
      match r2 with
      | [] => some (pre, [])
      | '+' :: r3 => (parseBuildF (r3.length + 1) r3).map (fun b => (pre, b))
      | _ => none
  | '+' :: r3 => (parseBuildF (r3.length + 1) r3).map (fun b => ([], b))
  | _ => none

/-- node-semver strict parse (`new SemVer(s)` / `semver.parse(s)`): length
bound, trim, one optional leading `v`, anchored grammar, MAX_SAFE_INTEGER
bounds on the numeric components. -/
def parseSemVerChars (input : List Char) : Option SemVer :=
  if input.length > 256 then none
  else
    let t := jsTrim input
    let s := match t with
      | 'v' :: rest => rest
      | other => other
    match parseMMP s with
    | none => none
    | some (maj, mnr, pat, rest) =>
      if maj ≤ maxSafeInt && mnr ≤ maxSafeInt && pat ≤ maxSafeInt then
        match parseTail rest with
        | none => none
        | some (pre, bld) => some ⟨maj, mnr, pat, pre, bld⟩
      else none

/-- `semver.parse` on a string. -/
def parseSemVer (s : String) : Option SemVer := parseSemVerChars s.data

/-- Render a prerelease identifier. -/
def PreId.render : PreId → String
  | PreId.num n => Nat.repr n
  | PreId.str s => s

/-- Dot-join. -/
def joinDots : List String → String
  | [] => ""
  | [x] => x
  | x :: rest => x ++ "." ++ joinDots rest

/-- `SemVer.version` / `format()`: canonical string without build
metadata. -/
def SemVer.render (v : SemVer) : String :=
  let core := Nat.repr v.major ++ "." ++ Nat.repr v.minor ++ "." ++ Nat.repr v.patch
  match v.prerelease with
  | [] => core
  | _ => core ++ "-" ++ joinDots (v.prerelease.map PreId.render)

/-- `semver.clean`: trim, strip every leading `=`/`v`, strict parse. -/
def semverCleanParsed (name : String) : Option SemVer :=
  parseSemVerChars ((jsTrim name.data).dropWhile (fun c => c = '=' || c = 'v'))

/-- `semver.clean` as a string result. -/
def semverClean (name : String) : Option String :=
  (semverCleanParsed name).map SemVer.render

/-- `semver.prerelease(name)`: strict parse of the raw string (no `=`/`v`
stripping beyond the single optional `v` of the grammar); `none` when the
string does not parse or has no prerelease identifiers. -/
def semverPrereleaseRaw (name : String) : Option (List PreId) :=
  match parseSemVer name with
  | none => none
  | some v =>
    match v.prerelease with
    | [] => none
    | l => some l

/-! ### Comparison -/

/-- Three-way comparison on Nat. -/
def cmpNat (a b : Nat) : Ordering :=
  if a < b then Ordering.lt else if b < a then Ordering.gt else Ordering.eq

/-- Three-way comparison on characters (by code point, as JS `<` on
one-character strings). -/
def cmpChar (a b : Char) : Ordering := cmpNat a.toNat b.toNat

/-- Lexicographic extension of a comparator to lists (shorter prefix is
smaller), matching the identifier-by-identifier loop of the library. -/
def lexOrd (f : α → α → Ordering) : List α → List α → Ordering
  | [], [] => Ordering.eq
  | [], _ :: _ => Ordering.lt
  | _ :: _, [] => Ordering.gt
  | a :: as, b :: bs => (f a b).then (lexOrd f as bs)

/-- `compareIdentifiers`: numeric identifiers sort before and among
themselves numerically; alphanumeric ones lexically. -/
def compareIdentifiers : PreId → PreId → Ordering
  | PreId.num a, PreId.num b => cmpNat a b
  | PreId.num _, PreId.str _ => Ordering.lt
  | PreId.str _, PreId.num _ => Ordering.gt
  | PreId.str a, PreId.str b => lexOrd cmpChar a.data b.data

/-- `comparePre`: a version without prerelease identifiers is greater than
one with; otherwise identifier lists compare lexicographically. -/
def cmpPreTop : List PreId → List PreId → Ordering
  | [], [] => Ordering.eq
  | [], _ :: _ => Ordering.gt
  | _ :: _, [] => Ordering.lt
  | a :: as, b :: bs => lexOrd compareIdentifiers (a :: as) (b :: bs)

/-- `semver.compare`: main components then prerelease. -/
def semverCompare (a b : SemVer) : Ordering :=
  (cmpNat a.major b.major).then
    ((cmpNat a.minor b.minor).then
      ((cmpNat a.patch b.patch).then (cmpPreTop a.prerelease b.prerelease)))

/-! ### Increment (`semver.inc`) -/

/-- Increment the rightmost numeric prerelease identifier; `none` when no
identifier is numeric. -/
def bumpRight : List PreId → Option (List PreId)
  | [] => none
  | p :: rest =>
    match bumpRight rest with
    | some rest2 => some (p :: rest2)
    | none =>
      match p with
      | PreId.num n => some (PreId.num (n + 1) :: rest)
      | PreId.str _ => none

/-- Second element of a list, if any. -/
def second : List α → Option α
  | _ :: b :: _ => some b
  | _ => none

/-- Numeric value of an all-digits character list, if so. -/
def digitStrVal (s : List Char) : Option Nat :=
  if !s.isEmpty && s.all Char.isDigit then some (digitsVal s) else none

/-- Numeric coercion the library applies inside `compareIdentifiers`. -/
def preIdNumVal : PreId → Option Nat
  | PreId.num n => some n
  | PreId.str s => digitStrVal s.data

/-- `compareIdentifiers(pre0, identifier) === 0` with the library's
coercion of digit strings to numbers. -/
def idEqPre (p : PreId) (id : String) : Bool :=
  match preIdNumVal p, digitStrVal id.data with
  | some a, some b => a == b
  | none, none =>
    match p with
    | PreId.str s => s == id
    | PreId.num _ => false
  | _, _ => false

/-- Exponent part of a JS decimal numeric literal restricted to the
identifier alphabet. -/
def signedDigits (s : List Char) : Bool :=
  let t := match s with
    | '-' :: r => r
    | other => other
  !t.isEmpty && t.all Char.isDigit

/-- Tail of a JS decimal literal after the mantissa digits. -/
def expPart : List Char → Bool
  | 'e' :: r => signedDigits r
  | 'E' :: r => signedDigits r
  | _ => false

/-- Decimal JS numeric literal over identifier characters. -/
def decTail (s : List Char) : Bool :=
  let p := takeDigits s
  !p.1.isEmpty && (p.2.isEmpty || expPart p.2)

/-- Hexadecimal digit. -/
def isHexDigitChar (c : Char) : Bool :=
  c.isDigit || ('a' ≤ c && c ≤ 'f') || ('A' ≤ c && c ≤ 'F')

/-- `0x`/`0o`/`0b` JS numeric literal over identifier characters. -/
def radixLit (s : List Char) : Bool :=
  match s with
  | '0' :: 'x' :: r => !r.isEmpty && r.all isHexDigitChar
  | '0' :: 'X' :: r => !r.isEmpty && r.all isHexDigitChar
  | '0' :: 'o' :: r => !r.isEmpty && r.all (fun c => '0' ≤ c && c ≤ '7')
  | '0' :: 'O' :: r => !r.isEmpty && r.all (fun c => '0' ≤ c && c ≤ '7')
  | '0' :: 'b' :: r => !r.isEmpty && r.all (fun c => c = '0' || c = '1')
  | '0' :: 'B' :: r => !r.isEmpty && r.all (fun c => c = '0' || c = '1')
  | _ => false

/-- Whether `Number(s)` is a number (not NaN), for strings over the
identifier alphabet; used to model the library's `isNaN` check. -/
def jsNumericIdentStr (s : List Char) : Bool :=
  match s with
  | '-' :: r => r = "Infinity".data || decTail r
  | _ => s = "Infinity".data || decTail s || radixLit s

/-- `isNaN(this.prerelease[1])`: missing entries are NaN, numbers are not,
strings are NaN unless they read as a JS number. -/
def preIdIsNaN : Option PreId → Bool
  | none => true
  | some (PreId.num _) => false
  | some (PreId.str s) => !jsNumericIdentStr s.data

/-- The raw identifier placed into a prerelease by `inc`: digit strings
without leading zeros are numbers, anything else stays a string (so that
rendering reproduces the library's output exactly). -/
def mkIdPre (id : String) : PreId :=
  if id.data.all Char.isDigit && validNumChars id.data then PreId.num (digitsVal id.data)
  else PreId.str id

/-- The `pre` step of `SemVer.inc`: bump the rightmost numeric identifier
(or seed `[0]`), then apply the identifier rule.  An empty identifier
string is falsy in JS and skips the identifier rule. -/
def incPre (pre0 : List PreId) (identifier : Option String) : List PreId :=
  let pre :=
    match pre0 with
    | [] => [PreId.num 0]
    | _ :: _ =>
      match bumpRight pre0 with
      | some l => l
      | none => pre0 ++ [PreId.num 0]
  match identifier with
  | none => pre
  | some id =>
    if id = "" then pre
    else
      if idEqPre (pre.headD (PreId.num 0)) id then
        if preIdIsNaN (second pre) then [mkIdPre id, PreId.num 0] else pre
      else [mkIdPre id, PreId.num 0]

/-- The release-type dispatch of `SemVer.inc`; `none` models the thrown
`invalid increment argument` for unknown release types. -/
def applyInc (v : SemVer) (release : String) (identifier : Option String) : Option SemVer :=
  if release = "premajor" then
    some ⟨v.major + 1, 0, 0, incPre [] identifier, v.build⟩
  else if release = "preminor" then
    some ⟨v.major, v.minor + 1, 0, incPre [] identifier, v.build⟩
  else if release = "prepatch" then
    some ⟨v.major, v.minor, v.patch + 1, incPre [] identifier, v.build⟩
  else if release = "prerelease" then
    let v2 := if v.prerelease.isEmpty then
        ⟨v.major, v.minor, v.patch + 1, [], v.build⟩
      else v
    some ⟨v2.major, v2.minor, v2.patch, incPre v2.prerelease identifier, v2.build⟩
  else if release = "major" then
    some ⟨(if v.minor ≠ 0 || v.patch ≠ 0 || v.prerelease.isEmpty then v.major + 1 else v.major),
          0, 0, [], v.build⟩
  else if release = "minor" then
    some ⟨v.major, (if v.patch ≠ 0 || v.prerelease.isEmpty then v.minor + 1 else v.minor),
          0, [], v.build⟩
  else if release = "patch" then
    some ⟨v.major, v.minor, (if v.prerelease.isEmpty then v.patch + 1 else v.patch),
          [], v.build⟩
  else if release = "pre" then
    some ⟨v.major, v.minor, v.patch, incPre v.prerelease identifier, v.build⟩
  else none

/-- Top-level `semver.inc`: parse, dispatch, render; `null` on any
failure. -/
def semverInc (version : String) (release : String) (identifier : Option String) :
    Option String :=
  match parseSemVer version with
  | none => none
  | some v => (applyInc v release identifier).map SemVer.render

/-! ## Repository data model (shapes of the remote API responses) -/

/-- A repository tag: name and the commit it points at. -/
structure Tag where
  name : String
  commitSha : String
deriving DecidableEq

/-- A commit: identifier and message. -/
structure Commit where
  sha : String
  message : String
deriving DecidableEq

/-- An issue label entry, which the API may return as a plain string or as
an object with an optional name. -/
inductive LabelEntry where
  | str (s : String)
  | obj (name : Option String)
deriving DecidableEq

/-- An issue: its labels. -/
structure Issue where
  labels : List LabelEntry
deriving DecidableEq

/-- A branch reference as returned by `listMatchingRefs(...).shift()`:
full ref string and head commit identifier (`object.sha`). -/
structure BranchInfo where
  ref : String
  sha : String
deriving DecidableEq

/-- The remote repository state a successful run reads: the tag list, the
first matching ref per queried branch name, the commit list per head
identifier (newest first), and the issue per number (`none` models an
absent/falsy response body, which the source skips over). -/
structure RepoState where
  tags : List Tag
  branch : String → Option BranchInfo
  commits : String → List Commit
  issues : Nat → Option Issue

/-! ## Fixed commit-message regular expressions -/

/-- `tok\b` somewhere in the text: the token occurs and is followed by a
word boundary. -/
def hasTokenB (tok : List Char) : List Char → Bool
  | [] => false
  | c :: rest =>
    (tok.isPrefixOf (c :: rest) && boundaryAfter ((c :: rest).drop tok.length)) ||
      hasTokenB tok rest

/-- `new RegExp('#wip\\b').test` -/
def testWip (m : String) : Bool := hasTokenB "#wip".data m.data

/-- `new RegExp('#major\\b').test` -/
def testMajor (m : String) : Bool := hasTokenB "#major".data m.data

/-- `new RegExp('#minor\\b').test` -/
def testMinor (m : String) : Bool := hasTokenB "#minor".data m.data

/-- `new RegExp('#patch\\b').test` -/
def testPatch (m : String) : Bool := hasTokenB "#patch".data m.data

/-- Remainder after `fix #` or `fixes #` at the head of the text, if
either alternative matches here. -/
def afterFixHash (s : List Char) : Option (List Char) :=
  if "fixes #".data.isPrefixOf s then some (s.drop 7)
  else if "fix #".data.isPrefixOf s then some (s.drop 5)
  else none

/-- `new RegExp('fix(?:es)? #\\d+').test` -/
def testFixChars : List Char → Bool
  | [] => false
  | c :: rest =>
    (match afterFixHash (c :: rest) with
     | some r => !(r.takeWhile Char.isDigit).isEmpty
     | none => false) ||
      testFixChars rest

/-- `/fix(?:es)? #(\d+)\b/.exec`, returning the numeric value of the first
capture of the leftmost match: the maximal digit run after the marker,
accepted only when followed by a word boundary. -/
def matcherExec : List Char → Option Nat
  | [] => none
  | c :: rest =>
    match afterFixHash (c :: rest) with
    | some r =>
      let ds := r.takeWhile Char.isDigit
      if !ds.isEmpty && boundaryAfter (r.dropWhile Char.isDigit) then some (digitsVal ds)
      else matcherExec rest
    | none => matcherExec rest

/-! ## The action's own functions -/

/-- `checkTag`: does any listed tag carry exactly this name. -/
def checkTag (tags : List Tag) (tagName : String) : Bool :=
  !(tags.filter (fun t => t.name == tagName)).isEmpty

/-- A tag qualifies for version handling iff `semver.clean` succeeds. -/
def qualifies (t : Tag) : Bool := (semverCleanParsed t.name).isSome

/-- The cleaned version of a qualifying tag (junk default otherwise,
applied only under the `qualifies` filter, mirroring the non-null
assertions in the source). -/
def cleanedOf (t : Tag) : SemVer := (semverCleanParsed t.name).getD ⟨0, 0, 0, [], []⟩

/-- The sort comparator `(a, b) => semver.compare(clean(a.name), clean(b.name))`. -/
def tagCmp (a b : Tag) : Ordering := semverCompare (cleanedOf a) (cleanedOf b)

/-- Non-descending order under the comparator, as a relation for the
stable sort. -/
def tagLeP (a b : Tag) : Prop := tagCmp a b ≠ Ordering.gt

instance : DecidableRel tagLeP := fun a b => by unfold tagLeP; infer_instance

/-- The filter of the latest-main path: `semver.prerelease(name) === null`
on the raw tag name. -/
def mainFilter (t : Tag) : Bool := (semverPrereleaseRaw t.name).isNone

/-- `getLatestTag`: keep cleanable tags, sort ascending by cleaned semver
(stable, as JS sort), and pop the last; with `boolAll = false` first drop
tags whose raw name strictly parses with prerelease identifiers. -/
def getLatestTag (tags : List Tag) (boolAll : Bool) : Option Tag :=
  if boolAll then (List.insertionSort tagLeP (tags.filter qualifies)).getLast?
  else ((List.insertionSort tagLeP (tags.filter qualifies)).filter mainFilter).getLast?

/-- `label.name || 'empty'` on an optional name. -/
def labelName : Option String → String
  | none => "empty"
  | some s => if s = "" then "empty" else s

/-- The classification an issue contributes in the fix path: `minor` when
any object label's name is a configured enhancement label, else `patch`. -/
def issueBump (issueTags : List String) (iss : Issue) : String :=
  if iss.labels.any (fun l =>
      match l with
      | LabelEntry.obj nm => issueTags.contains (labelName nm)
      | LabelEntry.str _ => false) then "minor"
  else "patch"

/-- The commit-scanning loop of `checkMessages`, with the mutable
`releaseBump` accumulator made an explicit argument. -/
def goCheck (issues : Nat → Option Issue) (tagSha : Option String) (issueTags : List String) :
    List Commit → String → String
  | [], releaseBump => releaseBump
  | commit :: rest, releaseBump =>
    let message := commit.message
    if some commit.sha = tagSha then releaseBump
    else if testWip message then goCheck issues tagSha issueTags rest releaseBump
    else if testMajor message then "major"
    else if testMinor message then goCheck issues tagSha issueTags rest "minor"
    else if releaseBump != "minor" && testPatch message then
      goCheck issues tagSha issueTags rest "patch"
    else if releaseBump != "minor" && testFixChars message.data then
      match matcherExec message.data with
      | some n =>
        if n > 0 then
          match issues n with
          | some iss => goCheck issues tagSha issueTags rest (issueBump issueTags iss)
          | none => goCheck issues tagSha issueTags rest releaseBump
        else goCheck issues tagSha issueTags rest releaseBump
      | none => goCheck issues tagSha issueTags rest releaseBump
    else goCheck issues tagSha issueTags rest releaseBump

/-- `checkMessages`: scan newest-first from the branch head, stopping at
the latest-main tag commit, accumulating from `'none'`. -/
def checkMessages (issues : Nat → Option Issue) (commits : List Commit)
    (tagSha : Option String) (issueTags : List String) : String :=
  goCheck issues tagSha issueTags commits "none"

/-- `isReleaseBranch`: split the configuration on commas, trim each piece,
and test the branch name against each piece as a regular expression.  The
regular-expression engine is the external `regexTest` oracle. -/
def isReleaseBranch (regexTest : String → String → Bool) (branchName : String)
    (branchList : String) : Bool :=
  ((splitOnChar ',' branchList.data).map (fun b => String.mk (jsTrim b))).any
    (fun pat => regexTest pat branchName)

/-! ## The main action flow -/

/-- The configuration inputs the action reads. -/
structure ActionInputs where
  githubToken : String
  dryRun : String
  bump : String
  branch : String
  releaseBranch : String
  withV : String
  tag : String
  issueLabels : String
deriving DecidableEq

/-- Branch resolution: the forced branch when configured (error when it
does not resolve), else the context ref with the first `refs/heads/`
stripped. -/
def resolveBranch (inp : ActionInputs) (ctxRef : String) (st : RepoState) :
    Except String BranchInfo :=
  if inp.branch ≠ "" then
    match st.branch inp.branch with
    | some bi => Except.ok bi
    | none => Except.error "unknown branch provided"
  else
    let activeBranch := String.mk (removeFirstOcc "refs/heads/".data ctxRef.data)
    match st.branch activeBranch with
    | some bi => Except.ok bi
    | none => Except.error ("failed to load branch " ++ activeBranch)

/-- `branchInfo.ref.split('/').pop()`: the last path segment of the ref. -/
def branchNameOf (bi : BranchInfo) : String :=
  ((splitOnChar '/' bi.ref.data).map String.mk).getLastD ""

/-- The effective enhancement-label list: the comma-split, trimmed
`issue-labels` input when nonempty, else the default. -/
def effectiveLabels (issueLabels : String) : List String :=
  if issueLabels ≠ "" then
    let xlabels := (splitOnChar ',' issueLabels.data).map (fun b => String.mk (jsTrim b))
    if xlabels ≠ [] then xlabels else ["enhancement"]
  else ["enhancement"]

/-- The `tag` output value: the latest tag's name, or `0.0.0`. -/
def versionTagOf (tags : List Tag) : String :=
  match getLatestTag tags true with
  | some t => t.name
  | none => "0.0.0"

/-- The second conflict check: the latest tag exists and points at the
resolved branch head. -/
def noNewCommits (tags : List Tag) (sha : String) : Bool :=
  match getLatestTag tags true with
  | some t => t.commitSha == sha
  | none => false

/-- The classification the run computes for a resolved branch head. -/
def classificationOf (st : RepoState) (inp : ActionInputs) (bi : BranchInfo) : String :=
  checkMessages st.issues (st.commits bi.sha)
    ((getLatestTag st.tags false).map (fun t => t.commitSha)) (effectiveLabels inp.issueLabels)

/-- The next version on a release branch: a full increment of the cleaned
current version, by the classification when it is not `none`, else by the
configured bump level. -/
def releaseNext (st : RepoState) (inp : ActionInputs) (bi : BranchInfo) : Option String :=
  match semverClean (versionTagOf st.tags) with
  | some v =>
    semverInc v
      (if classificationOf st inp bi = "none" then inp.bump else classificationOf st inp bi) none
  | none => none

/-- The default next version off release branches: a prerelease increment
of the cleaned current version, tagged with the branch name. -/
def prereleaseNext (st : RepoState) (bi : BranchInfo) : Option String :=
  match semverClean (versionTagOf st.tags) with
  | some v => semverInc v "prerelease" (some (branchNameOf bi))
  | none => none

/-- How JS renders a possibly-null string into a template literal. -/
def jsStr : Option String → String
  | some s => s
  | none => "null"

/-- How `core.setOutput` renders a possibly-null value. -/
def outputValue : Option String → String
  | some s => s
  | none => ""

/-- Everything the run computes before the dry-run gate: the outputs set
so far, the error if one was thrown, and the ref-creation payload the
write step would use. -/
structure ComputeResult where
  outputs : List (String × String)
  error : Option String
  pendingRef : Option (String × String)
deriving DecidableEq

/-- The observable outcome of one `action()` run: outputs set, the ref
creation issued (if any), and the error thrown (if any). -/
structure RunOutcome where
  outputs : List (String × String)
  createdRef : Option (String × String)
  error : Option String
deriving DecidableEq

/-- The computation phase of `action()` (everything up to the dry-run
check; the dry-run input is not read here). -/
def actionCompute (regexTest : String → String → Bool) (inp : ActionInputs)
    (ctxRef : String) (st : RepoState) : ComputeResult :=
  if inp.githubToken = "" then
    ⟨[], some "Input required and not supplied: github-token", none⟩
  else
    match resolveBranch inp ctxRef st with
    | Except.error e => ⟨[], some e, none⟩
    | Except.ok bi =>
      if inp.tag ≠ "" then
        if checkTag st.tags inp.tag then ⟨[], some ("tag already exists " ++ inp.tag), none⟩
        else ⟨[("new-tag", inp.tag)], none, some ("refs/tags/" ++ inp.tag, bi.sha)⟩
      else if noNewCommits st.tags bi.sha then
        ⟨[("tag", versionTagOf st.tags)], some "no new commits, avoid tagging", none⟩
      else
        ⟨[("tag", versionTagOf st.tags),
          ("new-tag", outputValue
            (if isReleaseBranch regexTest (branchNameOf bi) inp.releaseBranch then
              releaseNext st inp bi
            else prereleaseNext st bi))],
         none,
         some ("refs/tags/" ++ (if jsToLower inp.withV = "false" then "" else "v") ++
           jsStr
             (if isReleaseBranch regexTest (branchNameOf bi) inp.releaseBranch then
               releaseNext st inp bi
             else prereleaseNext st bi), bi.sha)⟩

/-- One `action()` run: compute, then either skip the write (dry run) or
issue the ref creation when no error was thrown. -/
def action (regexTest : String → String → Bool) (inp : ActionInputs) (ctxRef : String)
    (st : RepoState) : RunOutcome :=
  if jsToLower inp.dryRun = "true" then
    ⟨(actionCompute regexTest inp ctxRef st).outputs, none,
     (actionCompute regexTest inp ctxRef st).error⟩
  else
    ⟨(actionCompute regexTest inp ctxRef st).outputs,
     (match (actionCompute regexTest inp ctxRef st).error with
      | none => (actionCompute regexTest inp ctxRef st).pendingRef
      | some _ => none),
     (actionCompute regexTest inp ctxRef st).error⟩

/-- The triggering event's context: repository owner and name from the
payload (absent when the payload carries none), and the ref. -/
structure GithubContext where
  repoOwner : Option String
  repoName : Option String
  ref : String

/-- How one module execution ends: an uncaught module-level throw, a
caught error reported through `setFailed`, or success. -/
inductive ModuleResult where
  | uncaught (msg : String)
  | failed (msg : String) (run : RunOutcome)
  | succeeded (run : RunOutcome)
deriving DecidableEq

/-- The whole module: the top-level owner/name guards throw before
`action()` is ever called (and outside its `.catch`); any error the run
itself throws is caught and reported as the failure reason. -/
def runModule (regexTest : String → String → Bool) (ctx : GithubContext)
    (inp : ActionInputs) (st : RepoState) : ModuleResult :=
  match ctx.repoOwner with
  | none => ModuleResult.uncaught "Repository owner can't be null"
  | some _ =>
    match ctx.repoName with
    | none => ModuleResult.uncaught "Repository name can't be null"
    | some _ =>
      match (action regexTest inp ctx.ref st).error with
      | some e => ModuleResult.failed e (action regexTest inp ctx.ref st)
      | none => ModuleResult.succeeded (action regexTest inp ctx.ref st)

/-- A model instance for the external regular-expression oracle: literal
substring matching, which agrees with `new RegExp(pat).test(s)` for
patterns free of regex metacharacters; in particular the empty pattern
matches every string. -/
def charListInfix (p : List Char) : List Char → Bool
  | [] => p.isEmpty
  | c :: rest => p.isPrefixOf (c :: rest) || charListInfix p rest

/-- Literal-substring regex model, used to instantiate witnesses. -/
def literalRegexModel (pat s : String) : Bool := charListInfix pat.data s.data

/-! ## Comparator laws -/

/-- The two laws a three-way comparator needs for sorting: swapping the
arguments swaps the verdict, and non-descending order is transitive. -/
structure CmpLaws (f : α → α → Ordering) : Prop where
  swap_eq : ∀ a b, (f a b).swap = f b a
  le_trans : ∀ a b c, f a b ≠ Ordering.gt → f b c ≠ Ordering.gt → f a c ≠ Ordering.gt

theorem CmpLaws.refl_eq {f : α → α → Ordering} (h : CmpLaws f) (a : α) :
    f a a = Ordering.eq := by
  have hs := h.swap_eq a a
  cases hfa : f a a
  case lt => rw [hfa] at hs; exact absurd hs (by decide)
  case eq => rfl
  case gt => rw [hfa] at hs; exact absurd hs (by decide)

theorem CmpLaws.gt_iff_lt {f : α → α → Ordering} (h : CmpLaws f) (a b : α) :
    f a b = Ordering.gt ↔ f b a = Ordering.lt := by
  have hs := h.swap_eq a b
  constructor
  · intro hab; rw [hab] at hs; exact hs.symm
  · intro hba; rw [hba] at hs
    cases hab : f a b
    case lt => rw [hab] at hs; exact absurd hs (by decide)
    case eq => rw [hab] at hs; exact absurd hs (by decide)
    case gt => rfl

theorem CmpLaws.eq_symm {f : α → α → Ordering} (h : CmpLaws f) (a b : α)
    (hab : f a b = Ordering.eq) : f b a = Ordering.eq := by
  have hs := h.swap_eq a b
  rw [hab] at hs; exact hs.symm

theorem CmpLaws.lt_trans {f : α → α → Ordering} (h : CmpLaws f) (a b c : α)
    (hab : f a b = Ordering.lt) (hbc : f b c = Ordering.lt) : f a c = Ordering.lt := by
  cases hac : f a c
  case lt => rfl
  case eq =>
    exfalso
    have hca : f c a = Ordering.eq := h.eq_symm a c hac
    have hcb : f c b ≠ Ordering.gt :=
      h.le_trans c a b (by rw [hca]; decide) (by rw [hab]; decide)
    have : f c b = Ordering.gt := (h.gt_iff_lt c b).mpr hbc
    exact hcb this
  case gt =>
    exfalso
    have hca : f c a = Ordering.lt := (h.gt_iff_lt a c).mp hac
    have hcb : f c b ≠ Ordering.gt :=
      h.le_trans c a b (by rw [hca]; decide) (by rw [hab]; decide)
    have : f c b = Ordering.gt := (h.gt_iff_lt c b).mpr hbc
    exact hcb this

theorem CmpLaws.lt_of_lt_of_eq {f : α → α → Ordering} (h : CmpLaws f) (a b c : α)
    (hab : f a b = Ordering.lt) (hbc : f b c = Ordering.eq) : f a c = Ordering.lt := by
  cases hac : f a c
  case lt => rfl
  case eq =>
    exfalso
    have hcb : f c b = Ordering.eq := h.eq_symm b c hbc
    have hca : f c a = Ordering.eq := h.eq_symm a c hac
    have hba : f b a ≠ Ordering.gt :=
      h.le_trans b c a (by rw [hbc]; decide) (by rw [hca]; decide)
    exact hba ((h.gt_iff_lt b a).mpr hab)
  case gt =>
    exfalso
    have hca : f c a = Ordering.lt := (h.gt_iff_lt a c).mp hac
    have hcb : f c b = Ordering.eq := h.eq_symm b c hbc
    have hba : f b a ≠ Ordering.gt :=
      h.le_trans b c a (by rw [hbc]; decide) (by rw [hca]; decide)
    exact hba ((h.gt_iff_lt b a).mpr hab)

theorem CmpLaws.lt_of_eq_of_lt {f : α → α → Ordering} (h : CmpLaws f) (a b c : α)
    (hab : f a b = Ordering.eq) (hbc : f b c = Ordering.lt) : f a c = Ordering.lt := by
  cases hac : f a c
  case lt => rfl
  case eq =>
    exfalso
    have hba : f b a = Ordering.eq := h.eq_symm a b hab
    have hca : f c a = Ordering.eq := h.eq_symm a c hac
    have hcb : f c b ≠ Ordering.gt :=
      h.le_trans c a b (by rw [hca]; decide) (by rw [hab]; decide)
    exact hcb ((h.gt_iff_lt c b).mpr hbc)
  case gt =>
    exfalso
    have hca : f c a = Ordering.lt := (h.gt_iff_lt a c).mp hac
    have hcb : f c b ≠ Ordering.gt :=
      h.le_trans c a b (by rw [hca]; decide) (by rw [hab]; decide)
    exact hcb ((h.gt_iff_lt c b).mpr hbc)

theorem CmpLaws.eq_trans {f : α → α → Ordering} (h : CmpLaws f) (a b c : α)
    (hab : f a b = Ordering.eq) (hbc : f b c = Ordering.eq) : f a c = Ordering.eq := by
  have h1 : f a c ≠ Ordering.gt :=
    h.le_trans a b c (by rw [hab]; decide) (by rw [hbc]; decide)
  have h2 : f c a ≠ Ordering.gt :=
    h.le_trans c b a (by rw [h.eq_symm b c hbc]; decide) (by rw [h.eq_symm a b hab]; decide)
  cases hac : f a c
  case lt =>
    exfalso; exact h2 ((h.gt_iff_lt c a).mpr hac)
  case eq => rfl
  case gt => exact absurd hac h1

/-- A `then`-composition of lawful comparators is lawful. -/
theorem CmpLaws.thenComp {f g : α → α → Ordering} (hf : CmpLaws f) (hg : CmpLaws g) :
    CmpLaws (fun a b => (f a b).then (g a b)) := by
  constructor
  · intro a b
    cases hab : f a b <;>
      simp only [Ordering.then] <;>
      rw [← hf.swap_eq a b, hab] <;>
      simp only [Ordering.swap]
    exact hg.swap_eq a b
  · intro a b c h1 h2
    simp only at h1 h2 ⊢
    cases hab : f a b <;> rw [hab] at h1 <;> simp only [Ordering.then] at h1
    case gt => exact absurd rfl h1
    case lt =>
      cases hbc : f b c <;> rw [hbc] at h2 <;> simp only [Ordering.then] at h2
      case gt => exact absurd rfl h2
      case lt => rw [hf.lt_trans a b c hab hbc]; simp [Ordering.then]
      case eq => rw [hf.lt_of_lt_of_eq a b c hab hbc]; simp [Ordering.then]
    case eq =>
      cases hbc : f b c <;> rw [hbc] at h2 <;> simp only [Ordering.then] at h2
      case gt => exact absurd rfl h2
      case lt => rw [hf.lt_of_eq_of_lt a b c hab hbc]; simp [Ordering.then]
      case eq =>
        rw [hf.eq_trans a b c hab hbc]
        simp only [Ordering.then]
        exact hg.le_trans a b c h1 h2

/-- Lawfulness transfers along a key function. -/
theorem CmpLaws.comap {f : α → α → Ordering} (hf : CmpLaws f) (k : β → α) :
    CmpLaws (fun x y => f (k x) (k y)) := by
  constructor
  · intro a b; exact hf.swap_eq (k a) (k b)
  · intro a b c; exact hf.le_trans (k a) (k b) (k c)

theorem cmpNat_laws : CmpLaws cmpNat := by
  constructor
  · intro a b
    unfold cmpNat
    split_ifs <;> first | rfl | decide | omega
  · intro a b c h1 h2
    unfold cmpNat at h1 h2 ⊢
    split_ifs at h1 h2 ⊢ <;>
      first
      | decide
      | omega
      | (exact absurd rfl h1)
      | (exact absurd rfl h2)

theorem cmpChar_laws : CmpLaws cmpChar := cmpNat_laws.comap Char.toNat

theorem lexOrd_laws {f : α → α → Ordering} (hf : CmpLaws f) : CmpLaws (lexOrd f) := by
  constructor
  · intro a
    induction a with
    | nil => intro b; cases b <;> rfl
    | cons x xs ih =>
      intro b
      cases b with
      | nil => rfl
      | cons y ys =>
        show (lexOrd f (x :: xs) (y :: ys)).swap = lexOrd f (y :: ys) (x :: xs)
        simp only [lexOrd]
        cases hxy : f x y <;>
          simp only [Ordering.then] <;>
          rw [← hf.swap_eq x y, hxy] <;>
          simp only [Ordering.swap]
        exact ih ys
  · intro a
    induction a with
    | nil =>
      intro b c _ _
      cases c <;> simp [lexOrd]
    | cons x xs ih =>
      intro b c h1 h2
      cases b with
      | nil => exact absurd rfl h1
      | cons y ys =>
        cases c with
        | nil => exact absurd rfl h2
        | cons z zs =>
          simp only [lexOrd] at h1 h2 ⊢
          cases hxy : f x y <;> rw [hxy] at h1 <;> simp only [Ordering.then] at h1
          case gt => exact absurd rfl h1
          case lt =>
            cases hyz : f y z <;> rw [hyz] at h2 <;> simp only [Ordering.then] at h2
            case gt => exact absurd rfl h2
            case lt => rw [hf.lt_trans x y z hxy hyz]; simp [Ordering.then]
            case eq => rw [hf.lt_of_lt_of_eq x y z hxy hyz]; simp [Ordering.then]
          case eq =>
            cases hyz : f y z <;> rw [hyz] at h2 <;> simp only [Ordering.then] at h2
            case gt => exact absurd rfl h2
            case lt => rw [hf.lt_of_eq_of_lt x y z hxy hyz]; simp [Ordering.then]
            case eq =>
              rw [hf.eq_trans x y z hxy hyz]
              simp only [Ordering.then]
              exact ih ys zs h1 h2

theorem compareIdentifiers_laws : CmpLaws compareIdentifiers := by
  have hlex := lexOrd_laws cmpChar_laws
  constructor
  · intro a b
    cases a <;> cases b <;> simp only [compareIdentifiers] <;>
      first
      | rfl
      | decide
      | (exact cmpNat_laws.swap_eq _ _)
      | (exact hlex.swap_eq _ _)
  · intro a b c h1 h2
    cases a <;> cases b <;> cases c <;> simp only [compareIdentifiers] at h1 h2 ⊢ <;>
      first
      | decide
      | (exact absurd rfl h1)
      | (exact absurd rfl h2)
      | (exact cmpNat_laws.le_trans _ _ _ h1 h2)
      | (exact hlex.le_trans _ _ _ h1 h2)

theorem cmpPreTop_laws : CmpLaws cmpPreTop := by
  have hlex := lexOrd_laws compareIdentifiers_laws
  constructor
  · intro a b
    cases a <;> cases b <;> simp only [cmpPreTop] <;>
      first
      | rfl
      | decide
      | (exact hlex.swap_eq _ _)
  · intro a b c h1 h2
    cases a <;> cases b <;> cases c <;> simp only [cmpPreTop] at h1 h2 ⊢ <;>
      first
      | decide
      | (exact absurd rfl h1)
      | (exact absurd rfl h2)
      | (exact hlex.le_trans _ _ _ h1 h2)

theorem semverCompare_laws : CmpLaws semverCompare := by
  have h1 : CmpLaws (fun a b : SemVer => cmpPreTop a.prerelease b.prerelease) :=
    cmpPreTop_laws.comap SemVer.prerelease
  have h2 : CmpLaws (fun a b : SemVer => cmpNat a.patch b.patch) :=
    cmpNat_laws.comap SemVer.patch
  have h3 := h2.thenComp h1
  have h4 : CmpLaws (fun a b : SemVer => cmpNat a.minor b.minor) :=
    cmpNat_laws.comap SemVer.minor
  have h5 := h4.thenComp h3
  have h6 : CmpLaws (fun a b : SemVer => cmpNat a.major b.major) :=
    cmpNat_laws.comap SemVer.major
  exact h6.thenComp h5

theorem tagCmp_laws : CmpLaws tagCmp := semverCompare_laws.comap cleanedOf

instance : IsTrans Tag tagLeP :=
  ⟨fun a b c h1 h2 => tagCmp_laws.le_trans a b c h1 h2⟩

instance : IsTotal Tag tagLeP := by
  constructor
  intro a b
  by_cases h : tagCmp a b = Ordering.gt
  · right
    intro hba
    have := (tagCmp_laws.gt_iff_lt a b).mp h
    rw [this] at hba; exact absurd hba (by decide)
  · left; exact h

theorem tagLeP_refl (a : Tag) : tagLeP a a := by
  unfold tagLeP
  rw [tagCmp_laws.refl_eq a]; decide

/-! ## Sorted-list maximality helpers -/

theorem mem_of_getLastSome {α : Type} : ∀ (l : List α) (x : α), l.getLast? = some x → x ∈ l := by
  intro l
  induction l with
  | nil => intro x h; simp at h
  | cons a t ih =>
    intro x h
    cases t with
    | nil =>
      rw [List.getLast?_singleton] at h
      injection h with h2
      exact h2 ▸ List.mem_singleton_self a
    | cons b t2 =>
      rw [List.getLast?_cons_cons] at h
      exact List.mem_cons.mpr (Or.inr (ih x h))

theorem sorted_le_getLast {α : Type} {r : α → α → Prop} (hrefl : ∀ a, r a a) :
    ∀ (l : List α), l.Pairwise r → ∀ x, l.getLast? = some x → ∀ u ∈ l, r u x := by
  intro l
  induction l with
  | nil => intro _ x h; simp at h
  | cons a t ih =>
    intro hp x h u hu
    cases t with
    | nil =>
      rw [List.getLast?_singleton] at h
      injection h with h2
      rw [List.mem_singleton.mp hu, ← h2]
      exact hrefl a
    | cons b t2 =>
      rw [List.getLast?_cons_cons] at h
      have hp2 := List.pairwise_cons.mp hp
      rcases List.mem_cons.mp hu with hua | hut
      · have hx : x ∈ b :: t2 := mem_of_getLastSome _ _ h
        rw [hua]
        exact hp2.1 x hx
      · exact ih hp2.2 x h u hut

/-! ## Helper lemmas about the action flow -/

/-- On a release branch with no conflicts, the run's outputs are the
previous tag and the full bump chosen by the classification. -/
theorem actionCompute_release_outputs (regexTest : String → String → Bool)
    (inp : ActionInputs) (ctxRef : String) (st : RepoState) (bi : BranchInfo)
    (htok : inp.githubToken ≠ "") (htag : inp.tag = "")
    (hres : resolveBranch inp ctxRef st = Except.ok bi)
    (hnnc : noNewCommits st.tags bi.sha = false)
    (hrel : isReleaseBranch regexTest (branchNameOf bi) inp.releaseBranch = true) :
    actionCompute regexTest inp ctxRef st =
      ⟨[("tag", versionTagOf st.tags), ("new-tag", outputValue (releaseNext st inp bi))],
       none,
       some ("refs/tags/" ++ (if jsToLower inp.withV = "false" then "" else "v") ++
         jsStr (releaseNext st inp bi), bi.sha)⟩ := by
  unfold actionCompute
  rw [if_neg htok, hres]
  simp only [htag, hrel, hnnc]
  simp

/-- The computation phase never reads the dry-run input. -/
theorem actionCompute_dryRun_irrel (regexTest : String → String → Bool)
    (inp : ActionInputs) (d : String) (ctxRef : String) (st : RepoState) :
    actionCompute regexTest { inp with dryRun := d } ctxRef st =
      actionCompute regexTest inp ctxRef st := by
  cases inp; rfl

/-- When the computation phase records an error, the run reports it and
issues no ref creation. -/
theorem action_error_no_write (regexTest : String → String → Bool) (inp : ActionInputs)
    (ctxRef : String) (st : RepoState)
    (h : (actionCompute regexTest inp ctxRef st).error.isSome = true) :
    (action regexTest inp ctxRef st).error.isSome = true ∧
    (action regexTest inp ctxRef st).createdRef = none := by
  unfold action
  by_cases hd : jsToLower inp.dryRun = "true"
  · rw [if_pos hd]; exact ⟨h, rfl⟩
  · rw [if_neg hd]
    refine ⟨h, ?_⟩
    cases herr : (actionCompute regexTest inp ctxRef st).error with
    | none => rw [herr] at h; simp at h
    | some e => simp [herr]

/-- The empty pattern of the literal regex model matches every string,
like the JS regular expression compiled from the empty pattern. -/
theorem emptyPatternMatchesAll : ∀ s : String, literalRegexModel "" s = true := by
  intro s
  show charListInfix "".data s.data = true
  have h0 : "".data = ([] : List Char) := rfl
  rw [h0]
  cases s.data with
  | nil => rfl
  | cons c r => simp [charListInfix, List.isPrefixOf]

/-- A configured custom tag that already exists makes the computation
phase record the conflict error (or an earlier fatal error). -/
theorem actionCompute_custom_conflict (regexTest : String → String → Bool)
    (inp : ActionInputs) (ctxRef : String) (st : RepoState)
    (htag : inp.tag ≠ "") (hchk : checkTag st.tags inp.tag = true) :
    (actionCompute regexTest inp ctxRef st).error.isSome = true := by
  unfold actionCompute
  by_cases htok : inp.githubToken = ""
  · rw [if_pos htok]; rfl
  · rw [if_neg htok]
    cases hres : resolveBranch inp ctxRef st with
    | error e => rfl
    | ok bi =>
      dsimp only
      rw [if_pos htag, if_pos hchk]
      rfl

/-- A head identifier equal to the latest tag's commit makes the
computation phase record the no-new-commits error when no custom tag is
configured. -/
theorem actionCompute_stale_head (regexTest : String → String → Bool)
    (inp : ActionInputs) (ctxRef : String) (st : RepoState) (bi : BranchInfo)
    (htag : inp.tag = "") (hres : resolveBranch inp ctxRef st = Except.ok bi)
    (hnnc : noNewCommits st.tags bi.sha = true) :
    (actionCompute regexTest inp ctxRef st).error.isSome = true := by
  unfold actionCompute
  by_cases htok : inp.githubToken = ""
  · rw [if_pos htok]; rfl
  · rw [if_neg htok, hres]
    dsimp only
    rw [if_neg (by simp [htag]), if_pos hnnc]
    rfl

/-! ## Concrete scenario states -/

/-- Repository with one main tag `v1.2.0`, a `main` branch whose head has
new commits, and a configurable commit list. -/
def mainBranchState (msgs : List Commit) : RepoState :=
  { tags := [⟨"v1.2.0", "t1"⟩]
  , branch := fun b => if b = "main" then some ⟨"refs/heads/main", "h1"⟩ else none
  , commits := fun _ => msgs
  , issues := fun _ => none }

/-- Inputs for the release-branch scenarios: configured bump `minor`,
release pattern `main`. -/
def relInputs : ActionInputs :=
  { githubToken := "x", dryRun := "", bump := "minor", branch := "", releaseBranch := "main"
  , withV := "", tag := "", issueLabels := "" }

/-- Repository with tags `v1.2.0` and `v1.2.1-rc.1` and a `feature/x`
branch. -/
def stC5 : RepoState :=
  { tags := [⟨"v1.2.0", "s1"⟩, ⟨"v1.2.1-rc.1", "s2"⟩]
  , branch := fun b => if b = "feature/x" then some ⟨"refs/heads/feature/x", "h1"⟩ else none
  , commits := fun _ => []
  , issues := fun _ => none }

/-- Inputs for the prerelease scenario: no custom tag, release pattern
`release` (which `feature/x` does not match). -/
def inpC5 : ActionInputs :=
  { githubToken := "t", dryRun := "", bump := "minor", branch := "", releaseBranch := "release"
  , withV := "", tag := "", issueLabels := "" }

/-- Repository whose only tag `v1.0.0` points at the `main` head `h1`. -/
def stC6 : RepoState :=
  { tags := [⟨"v1.0.0", "h1"⟩]
  , branch := fun b => if b = "main" then some ⟨"refs/heads/main", "h1"⟩ else none
  , commits := fun _ => []
  , issues := fun _ => none }

/-- Inputs configuring the custom tag `v9.9.9`. -/
def inpC6 : ActionInputs :=
  { githubToken := "x", dryRun := "", bump := "minor", branch := "", releaseBranch := ""
  , withV := "", tag := "v9.9.9", issueLabels := "" }

/-! ## Claims -/

/-- C2: when the scan reaches a commit whose message is not a
work-in-progress skip and whose identifier is not the stop identifier, and
that message matches the `#major` marker, the classifier returns `major`
immediately: the result is `major` for every accumulator value the scan
could have reached, and for every tail of older commits, so no later
commit is evaluated. -/
theorem c2_major_short_circuit (issues : Nat → Option Issue) (tagSha : Option String)
    (issueTags : List String) (c : Commit) (rest : List Commit) (rb : String)
    (hsha : some c.sha ≠ tagSha) (hwip : testWip c.message = false)
    (hmaj : testMajor c.message = true) :
    goCheck issues tagSha issueTags (c :: rest) rb = "major" := by
  simp only [goCheck]
  rw [if_neg hsha, hwip, hmaj]
  simp

theorem c2_witness :
    goCheck (fun _ => none) none ["enhancement"]
      [⟨"aaa", "add feature #major"⟩, ⟨"bbb", "#patch fix"⟩] "none" = "major" :=
  c2_major_short_circuit (fun _ => none) none ["enhancement"] ⟨"aaa", "add feature #major"⟩
    [⟨"bbb", "#patch fix"⟩] "none" (by decide) (by decide) (by decide)

/-- C3: once the accumulator holds `minor`, the rest of the scan keeps it
at `minor` as long as no later commit is an effective `#major` commit; in
particular later commits matching only `#patch` or a fix reference (with
or without enhancement labels) never move the result away from `minor`. -/
theorem c3_minor_not_downgraded (issues : Nat → Option Issue) (tagSha : Option String)
    (issueTags : List String) :
    ∀ rest : List Commit,
      (∀ c ∈ rest, testWip c.message = true ∨ testMajor c.message = false) →
      goCheck issues tagSha issueTags rest "minor" = "minor" := by
  intro rest
  induction rest with
  | nil => intro _; rfl
  | cons c t ih =>
    intro h
    have hc := h c (List.mem_cons_self c t)
    have ht : ∀ x ∈ t, testWip x.message = true ∨ testMajor x.message = false :=
      fun x hx => h x (List.mem_cons_of_mem c hx)
    simp only [goCheck]
    by_cases hsha : some c.sha = tagSha
    · rw [if_pos hsha]
    · rw [if_neg hsha]
      by_cases hwip : testWip c.message = true
      · rw [if_pos hwip]; exact ih ht
      · rw [if_neg hwip]
        have hmaj : testMajor c.message = false := by
          rcases hc with h1 | h1
          · exact absurd h1 hwip
          · exact h1
        rw [hmaj, if_neg (by simp)]
        by_cases hmin : testMinor c.message = true
        · rw [if_pos hmin]; exact ih ht
        · rw [if_neg hmin]
          have hbne : (("minor" : String) != "minor") = false := by decide
          rw [hbne]
          simp only [Bool.false_and]
          rw [if_neg (by simp), if_neg (by simp)]
          exact ih ht

theorem c3_witness :
    goCheck (fun _ => none) none ["enhancement"]
      [⟨"a", "#patch"⟩, ⟨"b", "fixes #12"⟩] "minor" = "minor" :=
  c3_minor_not_downgraded (fun _ => none) none ["enhancement"]
    [⟨"a", "#patch"⟩, ⟨"b", "fixes #12"⟩] (by decide)

/-- C8: a commit whose message matches the `#wip` marker (and that is not
the stop commit) contributes nothing: inserting it anywhere in the scanned
sequence leaves the classification unchanged, whatever other markers its
message carries. -/
theorem c8_wip_no_contribution (issues : Nat → Option Issue) (tagSha : Option String)
    (issueTags : List String) (c : Commit)
    (hwip : testWip c.message = true) (hsha : some c.sha ≠ tagSha) :
    ∀ (l1 l2 : List Commit) (rb : String),
      goCheck issues tagSha issueTags (l1 ++ c :: l2) rb =
        goCheck issues tagSha issueTags (l1 ++ l2) rb := by
  intro l1
  induction l1 with
  | nil =>
    intro l2 rb
    simp only [List.nil_append]
    conv => lhs; simp only [goCheck]
    rw [if_neg hsha, if_pos hwip]
  | cons d t ih =>
    intro l2 rb
    simp only [List.cons_append]
    simp only [goCheck]
    by_cases h1 : some d.sha = tagSha
    · rw [if_pos h1, if_pos h1]
    · rw [if_neg h1, if_neg h1]
      by_cases h2 : testWip d.message = true
      · rw [if_pos h2, if_pos h2]; exact ih l2 rb
      · rw [if_neg h2, if_neg h2]
        by_cases h3 : testMajor d.message = true
        · rw [if_pos h3, if_pos h3]
        · rw [if_neg h3, if_neg h3]
          by_cases h4 : testMinor d.message = true
          · rw [if_pos h4, if_pos h4]; exact ih l2 "minor"
          · rw [if_neg h4, if_neg h4]
            by_cases h5 : ((rb != "minor") && testPatch d.message) = true
            · rw [if_pos h5, if_pos h5]; exact ih l2 "patch"
            · rw [if_neg h5, if_neg h5]
              by_cases h6 : ((rb != "minor") && testFixChars d.message.data) = true
              · rw [if_pos h6, if_pos h6]
                cases hm : matcherExec d.message.data with
                | none => exact ih l2 rb
                | some n =>
                  dsimp only
                  by_cases h7 : n > 0
                  · rw [if_pos h7, if_pos h7]
                    cases hiss : issues n with
                    | none => exact ih l2 rb
                    | some iss => exact ih l2 (issueBump issueTags iss)
                  · rw [if_neg h7, if_neg h7]; exact ih l2 rb
              · rw [if_neg h6, if_neg h6]; exact ih l2 rb

theorem c8_witness :
    goCheck (fun _ => none) none ["enhancement"]
      [⟨"a", "#patch"⟩, ⟨"w", "#wip #major"⟩, ⟨"b", "more"⟩] "none" =
      goCheck (fun _ => none) none ["enhancement"] [⟨"a", "#patch"⟩, ⟨"b", "more"⟩] "none" :=
  c8_wip_no_contribution (fun _ => none) none ["enhancement"] ⟨"w", "#wip #major"⟩
    (by decide) (by decide) [⟨"a", "#patch"⟩] [⟨"b", "more"⟩] "none"

/-- C4: on a release branch (and with no earlier fatal condition) the run
outputs the previous tag and a full standard increment of the cleaned
current version, by the classification level when it is not `none` and by
the configured bump level otherwise (`releaseNext` is exactly that
choice); in particular, with current main tag `v1.2.0`, configured bump
`minor` and no commit markers the new tag is `1.3.0`, while a `#major`
commit message makes it `2.0.0`. -/
theorem c4_release_branch_bump :
    (∀ (regexTest : String → String → Bool) (inp : ActionInputs) (ctxRef : String)
        (st : RepoState) (bi : BranchInfo),
        inp.githubToken ≠ "" → inp.tag = "" →
        resolveBranch inp ctxRef st = Except.ok bi →
        noNewCommits st.tags bi.sha = false →
        isReleaseBranch regexTest (branchNameOf bi) inp.releaseBranch = true →
        (actionCompute regexTest inp ctxRef st).outputs =
          [("tag", versionTagOf st.tags), ("new-tag", outputValue (releaseNext st inp bi))]) ∧
    (action literalRegexModel relInputs "refs/heads/main"
        (mainBranchState [⟨"c1", "regular work"⟩])).outputs =
      [("tag", "v1.2.0"), ("new-tag", "1.3.0")] ∧
    (action literalRegexModel relInputs "refs/heads/main"
        (mainBranchState [⟨"c1", "rework #major"⟩])).outputs =
      [("tag", "v1.2.0"), ("new-tag", "2.0.0")] := by
  refine ⟨?_, by decide, by decide⟩
  intro regexTest inp ctxRef st bi htok htag hres hnnc hrel
  rw [actionCompute_release_outputs regexTest inp ctxRef st bi htok htag hres hnnc hrel]

theorem c4_witness :
    (actionCompute literalRegexModel relInputs "refs/heads/main"
        (mainBranchState [⟨"c1", "regular work"⟩])).outputs =
      [("tag", versionTagOf (mainBranchState [⟨"c1", "regular work"⟩]).tags),
       ("new-tag", outputValue (releaseNext (mainBranchState [⟨"c1", "regular work"⟩]) relInputs
         ⟨"refs/heads/main", "h1"⟩))] :=
  c4_release_branch_bump.1 literalRegexModel relInputs "refs/heads/main"
    (mainBranchState [⟨"c1", "regular work"⟩]) ⟨"refs/heads/main", "h1"⟩
    (by decide) (by decide) rfl (by decide) (by decide)

/-- C5 counterexample: with tags `v1.2.0`, `v1.2.1-rc.1` and resolved
branch `feature/x` (not a release branch), the computed next version is
`1.2.1-x.0`, not the claimed `1.2.1-feature.x.0`: the source takes only
the last path segment of the ref as the branch name. -/
theorem c5_counterexample :
    (action literalRegexModel inpC5 "refs/heads/feature/x" stC5).outputs =
      [("tag", "v1.2.1-rc.1"), ("new-tag", "1.2.1-x.0")] ∧
    ("new-tag", "1.2.1-feature.x.0") ∉
      (action literalRegexModel inpC5 "refs/heads/feature/x" stC5).outputs := by
  decide

/-- C5 (amended): for that input state the next version is the prerelease
increment of the latest cleaned version tagged with the last path segment
of the branch ref (`x`), namely `1.2.1-x.0`; the branch is indeed not a
release branch under the configured pattern. -/
theorem c5_prerelease_increment :
    branchNameOf ⟨"refs/heads/feature/x", "h1"⟩ = "x" ∧
    isReleaseBranch literalRegexModel (branchNameOf ⟨"refs/heads/feature/x", "h1"⟩)
      inpC5.releaseBranch = false ∧
    prereleaseNext stC5 ⟨"refs/heads/feature/x", "h1"⟩ = some "1.2.1-x.0" ∧
    (action literalRegexModel inpC5 "refs/heads/feature/x" stC5).outputs =
      [("tag", "v1.2.1-rc.1"), ("new-tag", "1.2.1-x.0")] ∧
    (action literalRegexModel inpC5 "refs/heads/feature/x" stC5).createdRef =
      some ("refs/tags/v1.2.1-x.0", "h1") := by
  decide

/-- C6 counterexample: when a custom tag is configured (and does not yet
exist) while the latest qualifying tag's commit equals the resolved branch
head (`h1`), the second conflict condition holds and yet the run succeeds
and issues the ref creation, so the claim's "whenever either condition
holds" fails. -/
theorem c6_counterexample :
    getLatestTag stC6.tags true = some ⟨"v1.0.0", "h1"⟩ ∧
    stC6.branch "main" = some ⟨"refs/heads/main", "h1"⟩ ∧
    checkTag stC6.tags "v9.9.9" = false ∧
    (action literalRegexModel inpC6 "refs/heads/main" stC6).error = none ∧
    (action literalRegexModel inpC6 "refs/heads/main" stC6).createdRef =
      some ("refs/tags/v9.9.9", "h1") := by
  decide

/-- C6 (amended): a configured custom tag that already exists always
aborts the run with a failure and no ref creation; and when no custom tag
is configured, a latest qualifying tag pointing at the resolved branch
head aborts the run with a failure and no ref creation. -/
theorem c6_conflicts_abort (regexTest : String → String → Bool) (inp : ActionInputs)
    (ctxRef : String) (st : RepoState) :
    ((inp.tag ≠ "" ∧ checkTag st.tags inp.tag = true) →
      (action regexTest inp ctxRef st).error.isSome = true ∧
      (action regexTest inp ctxRef st).createdRef = none) ∧
    (∀ bi : BranchInfo, inp.tag = "" → resolveBranch inp ctxRef st = Except.ok bi →
      noNewCommits st.tags bi.sha = true →
      (action regexTest inp ctxRef st).error.isSome = true ∧
      (action regexTest inp ctxRef st).createdRef = none) := by
  constructor
  · intro h
    exact action_error_no_write regexTest inp ctxRef st
      (actionCompute_custom_conflict regexTest inp ctxRef st h.1 h.2)
  · intro bi htag hres hnnc
    exact action_error_no_write regexTest inp ctxRef st
      (actionCompute_stale_head regexTest inp ctxRef st bi htag hres hnnc)

theorem c6_witness :
    ((action literalRegexModel { inpC6 with tag := "v1.0.0" } "refs/heads/main" stC6).error.isSome =
        true ∧
      (action literalRegexModel { inpC6 with tag := "v1.0.0" } "refs/heads/main" stC6).createdRef =
        none) ∧
    ((action literalRegexModel { inpC6 with tag := "" } "refs/heads/main" stC6).error.isSome =
        true ∧
      (action literalRegexModel { inpC6 with tag := "" } "refs/heads/main" stC6).createdRef =
        none) :=
  ⟨(c6_conflicts_abort literalRegexModel { inpC6 with tag := "v1.0.0" } "refs/heads/main"
      stC6).1 ⟨by decide, by decide⟩,
   (c6_conflicts_abort literalRegexModel { inpC6 with tag := "" } "refs/heads/main"
      stC6).2 ⟨"refs/heads/main", "h1"⟩ (by decide) rfl (by decide)⟩

/-- C7 counterexample: when the triggering event carries no repository
owner, the module-level guard throws outside the `action().catch` chain,
so the process terminates with an uncaught exception. -/
theorem c7_counterexample :
    runModule literalRegexModel ⟨none, some "repo", "refs/heads/main"⟩ inpC5 stC5 =
      ModuleResult.uncaught "Repository owner can't be null" := by
  decide

/-- C7 (amended): once the module-level owner/name guards pass, every
error thrown during the run is caught and reported as the failure reason,
and the module never ends in an uncaught exception; the guards themselves,
however, throw uncaught when the payload lacks an owner or a name. -/
theorem c7_errors_caught (regexTest : String → String → Bool) (ctx : GithubContext)
    (inp : ActionInputs) (st : RepoState)
    (h1 : ctx.repoOwner.isSome = true) (h2 : ctx.repoName.isSome = true) :
    (∀ msg, runModule regexTest ctx inp st ≠ ModuleResult.uncaught msg) ∧
    (∀ e, (action regexTest inp ctx.ref st).error = some e →
      runModule regexTest ctx inp st = ModuleResult.failed e (action regexTest inp ctx.ref st)) ∧
    ((action regexTest inp ctx.ref st).error = none →
      runModule regexTest ctx inp st = ModuleResult.succeeded (action regexTest inp ctx.ref st)) := by
  obtain ⟨o, ho⟩ := Option.isSome_iff_exists.mp h1
  obtain ⟨n, hn⟩ := Option.isSome_iff_exists.mp h2
  unfold runModule
  rw [ho, hn]
  dsimp only
  refine ⟨?_, ?_, ?_⟩
  · intro msg
    cases herr : (action regexTest inp ctx.ref st).error with
    | none => exact fun hcon => ModuleResult.noConfusion hcon
    | some e => exact fun hcon => ModuleResult.noConfusion hcon
  · intro e he
    rw [he]
  · intro he
    rw [he]

theorem c7_witness :
    runModule literalRegexModel ⟨some "owner", some "repo", "refs/heads/feature/x"⟩ inpC5 stC5 ≠
      ModuleResult.uncaught "boom" :=
  (c7_errors_caught literalRegexModel ⟨some "owner", some "repo", "refs/heads/feature/x"⟩
    inpC5 stC5 (by decide) (by decide)).1 "boom"

/-- C9: a run with dry-run input `true` has exactly the outcome of the
same run with the dry-run input unset, except that no ref creation is
issued: outputs and error are identical, the write is omitted. -/
theorem c9_dry_run_frame (regexTest : String → String → Bool) (inp : ActionInputs)
    (ctxRef : String) (st : RepoState) (hd : inp.dryRun = "true") :
    action regexTest inp ctxRef st =
      { action regexTest { inp with dryRun := "" } ctxRef st with createdRef := none } := by
  cases inp with
  | mk tok dr bu br rb wv tg il =>
    simp only at hd
    subst hd
    unfold action
    rw [show actionCompute regexTest (ActionInputs.mk tok "" bu br rb wv tg il) ctxRef st =
          actionCompute regexTest (ActionInputs.mk tok "true" bu br rb wv tg il) ctxRef st from
        actionCompute_dryRun_irrel regexTest (ActionInputs.mk tok "true" bu br rb wv tg il) ""
          ctxRef st]
    dsimp only
    rw [if_pos (show jsToLower "true" = "true" from rfl)]
    rw [if_neg (show ¬jsToLower "" = "true" by decide)]

theorem c9_witness :
    action literalRegexModel { inpC5 with dryRun := "true" } "refs/heads/feature/x" stC5 =
      { action literalRegexModel
          { { inpC5 with dryRun := "true" } with dryRun := "" } "refs/heads/feature/x" stC5 with
        createdRef := none } :=
  c9_dry_run_frame literalRegexModel { inpC5 with dryRun := "true" } "refs/heads/feature/x"
    stC5 rfl

/-- C10: when the release-branch configuration is the empty string and the
regular-expression engine sends the empty pattern to a regex matching
every string (as JS does), every branch name is a release branch, and
consequently every non-conflicting run without a custom tag outputs the
full-bump next version, never the prerelease-increment one. -/
theorem c10_empty_release_pattern (regexTest : String → String → Bool)
    (hengine : ∀ s, regexTest "" s = true) :
    (∀ branchName, isReleaseBranch regexTest branchName "" = true) ∧
    (∀ (inp : ActionInputs) (ctxRef : String) (st : RepoState) (bi : BranchInfo),
        inp.releaseBranch = "" → inp.githubToken ≠ "" → inp.tag = "" →
        resolveBranch inp ctxRef st = Except.ok bi →
        noNewCommits st.tags bi.sha = false →
        (actionCompute regexTest inp ctxRef st).outputs =
          [("tag", versionTagOf st.tags), ("new-tag", outputValue (releaseNext st inp bi))]) := by
  have hall : ∀ branchName, isReleaseBranch regexTest branchName "" = true := by
    intro bn
    show ((splitOnChar ',' "".data).map (fun b => String.mk (jsTrim b))).any
      (fun pat => regexTest pat bn) = true
    have h1 : splitOnChar ',' "".data = [[]] := rfl
    rw [h1]
    have h2 : ([[]] : List (List Char)).map (fun b => String.mk (jsTrim b)) = [""] := rfl
    rw [h2]
    simp [hengine]
  refine ⟨hall, ?_⟩
  intro inp ctxRef st bi hrb htok htag hres hnnc
  have hrel : isReleaseBranch regexTest (branchNameOf bi) inp.releaseBranch = true := by
    rw [hrb]; exact hall (branchNameOf bi)
  rw [actionCompute_release_outputs regexTest inp ctxRef st bi htok htag hres hnnc hrel]

theorem c10_witness :
    isReleaseBranch literalRegexModel "feature" "" = true ∧
    (actionCompute literalRegexModel { relInputs with releaseBranch := "" } "refs/heads/main"
        (mainBranchState [])).outputs =
      [("tag", versionTagOf (mainBranchState []).tags),
       ("new-tag", outputValue (releaseNext (mainBranchState [])
         { relInputs with releaseBranch := "" } ⟨"refs/heads/main", "h1"⟩))] :=
  ⟨(c10_empty_release_pattern literalRegexModel emptyPatternMatchesAll).1 "feature",
   (c10_empty_release_pattern literalRegexModel emptyPatternMatchesAll).2
     { relInputs with releaseBranch := "" } "refs/heads/main" (mainBranchState [])
     ⟨"refs/heads/main", "h1"⟩ rfl (by decide) (by decide) rfl (by decide)⟩

/-- C1 counterexample: the tag named `=1.2.3-rc.1` qualifies (its name
cleans to the valid version `1.2.3-rc.1`, which has prerelease
identifiers), yet the latest-main computation returns it, because the
prerelease filter strict-parses the raw name (where the `=` makes parsing
fail, reporting no prerelease identifiers).  So "latest main" is not the
maximum over qualifying tags without prerelease identifiers (that set is
empty here) and it can be a prerelease version. -/
theorem c1_counterexample :
    qualifies ⟨"=1.2.3-rc.1", "sha0"⟩ = true ∧
    (cleanedOf ⟨"=1.2.3-rc.1", "sha0"⟩).prerelease ≠ [] ∧
    getLatestTag [⟨"=1.2.3-rc.1", "sha0"⟩] false = some ⟨"=1.2.3-rc.1", "sha0"⟩ := by
  decide

/-- C1 (amended): "latest" is a qualifying tag that every qualifying tag
is below-or-equal under semver comparison of cleaned names, and is absent
iff no tag qualifies; "latest main" is the analogous maximum over the
qualifying tags whose raw name strict-parses with no prerelease
identifiers (rather than over those whose cleaned version has none), and
is absent iff no tag passes both filters. -/
theorem c1_latest_tag_maximal (tags : List Tag) :
    (∀ t, getLatestTag tags true = some t →
        t ∈ tags ∧ qualifies t = true ∧ ∀ u ∈ tags, qualifies u = true → tagLeP u t) ∧
    (getLatestTag tags true = none ↔ ∀ u ∈ tags, qualifies u = false) ∧
    (∀ t, getLatestTag tags false = some t →
        t ∈ tags ∧ qualifies t = true ∧ mainFilter t = true ∧
          ∀ u ∈ tags, qualifies u = true → mainFilter u = true → tagLeP u t) ∧
    (getLatestTag tags false = none ↔
        ∀ u ∈ tags, qualifies u = false ∨ mainFilter u = false) := by
  have hperm := List.perm_insertionSort tagLeP (tags.filter qualifies)
  have hsorted : (List.insertionSort tagLeP (tags.filter qualifies)).Pairwise tagLeP :=
    List.sorted_insertionSort tagLeP (tags.filter qualifies)
  refine ⟨?_, ?_, ?_, ?_⟩
  · intro t ht
    have ht2 : (List.insertionSort tagLeP (tags.filter qualifies)).getLast? = some t := by
      simpa [getLatestTag] using ht
    have htmem := (hperm.mem_iff).mp (mem_of_getLastSome _ _ ht2)
    have hmf := List.mem_filter.mp htmem
    refine ⟨hmf.1, hmf.2, ?_⟩
    intro u hu hq
    exact sorted_le_getLast tagLeP_refl _ hsorted t ht2 u
      ((hperm.mem_iff).mpr (List.mem_filter.mpr ⟨hu, hq⟩))
  · constructor
    · intro h
      have hnil : List.insertionSort tagLeP (tags.filter qualifies) = [] :=
        List.getLast?_eq_none_iff.mp (by simpa [getLatestTag] using h)
      have hfn : tags.filter qualifies = [] := by
        have hp := hperm
        rw [hnil] at hp
        exact hp.symm.eq_nil
      intro u hu
      by_contra hq
      simp only [Bool.not_eq_false] at hq
      have hin : u ∈ tags.filter qualifies := List.mem_filter.mpr ⟨hu, hq⟩
      rw [hfn] at hin
      exact absurd hin (List.not_mem_nil u)
    · intro h
      have hfn : tags.filter qualifies = [] :=
        List.filter_eq_nil_iff.mpr (fun a ha => by rw [h a ha]; simp)
      simp [getLatestTag, hfn]
  · intro t ht
    have ht2 :
        ((List.insertionSort tagLeP (tags.filter qualifies)).filter mainFilter).getLast? =
          some t := by
      simpa [getLatestTag] using ht
    have hpair2 :
        ((List.insertionSort tagLeP (tags.filter qualifies)).filter mainFilter).Pairwise
          tagLeP :=
      List.Pairwise.filter mainFilter hsorted
    have htm := List.mem_filter.mp (mem_of_getLastSome _ _ ht2)
    have htm2 := List.mem_filter.mp ((hperm.mem_iff).mp htm.1)
    refine ⟨htm2.1, htm2.2, htm.2, ?_⟩
    intro u hu hq hm
    exact sorted_le_getLast tagLeP_refl _ hpair2 t ht2 u
      (List.mem_filter.mpr ⟨(hperm.mem_iff).mpr (List.mem_filter.mpr ⟨hu, hq⟩), hm⟩)
  · constructor
    · intro h
      have hnil :
          (List.insertionSort tagLeP (tags.filter qualifies)).filter mainFilter = [] :=
        List.getLast?_eq_none_iff.mp (by simpa [getLatestTag] using h)
      intro u hu
      by_cases hq : qualifies u = true
      · right
        by_contra hm
        simp only [Bool.not_eq_false] at hm
        have hin : u ∈ (List.insertionSort tagLeP (tags.filter qualifies)).filter mainFilter :=
          List.mem_filter.mpr ⟨(hperm.mem_iff).mpr (List.mem_filter.mpr ⟨hu, hq⟩), hm⟩
        rw [hnil] at hin
        exact absurd hin (List.not_mem_nil u)
      · left
        revert hq; cases qualifies u <;> simp
    · intro h
      have hnil :
          (List.insertionSort tagLeP (tags.filter qualifies)).filter mainFilter = [] := by
        apply List.filter_eq_nil_iff.mpr
        intro a ha
        have ha2 := List.mem_filter.mp ((hperm.mem_iff).mp ha)
        rcases h a ha2.1 with h1 | h1
        · rw [ha2.2] at h1; exact absurd h1 (by decide)
        · simp [h1]
      simp [getLatestTag, hnil]

theorem c1_witness :
    getLatestTag [⟨"v1.0.0", "a"⟩, ⟨"v2.0.0-rc.1", "b"⟩, ⟨"junk", "c"⟩] true =
        some ⟨"v2.0.0-rc.1", "b"⟩ ∧
    tagLeP ⟨"v1.0.0", "a"⟩ ⟨"v2.0.0-rc.1", "b"⟩ ∧
    getLatestTag [⟨"v1.0.0", "a"⟩, ⟨"v2.0.0-rc.1", "b"⟩, ⟨"junk", "c"⟩] false =
        some ⟨"v1.0.0", "a"⟩ := by
  refine ⟨by decide, ?_, by decide⟩
  exact ((c1_latest_tag_maximal [⟨"v1.0.0", "a"⟩, ⟨"v2.0.0-rc.1", "b"⟩, ⟨"junk", "c"⟩]).1
    ⟨"v2.0.0-rc.1", "b"⟩ (by decide)).2.2 ⟨"v1.0.0", "a"⟩ (by decide) (by decide)

end ActionTagger
